import Mathlib

/-!
Verification development for the AI_Bridge batch-translation engine.

This file gives a shallow embedding, in Lean 4, of the core logic of the
repository: the numbered-response parsers
(`TranslationProcessor.parse_numbered_text` in
`src/helper/translation_processor.py` and
`WebBotServices.parse_numbered_text` in `src/helper/web_bot_services.py`),
the output-store loading and completed/failed classification
(`src/helper/prompt_helper.py::load_existing_results`, and the identical
inline logic of `process_with_api` and `run_web_service`), the pending-id
planners of the three driving modes, the batch loop of
`BotController.run_web_service` (`src/gui/bot_controller.py`), and the
progress counter `TranslationProcessor.update_progress`.

Python strings are modelled as Lean `String` / `List Char`; Python dicts
keyed by id are modelled as association lists with last-write-wins upsert
(`dictInsert`), preserving Python's insertion-order update-in-place
semantics; Python sets are modelled as `Finset`.  The regular-expression
operations of the parser are modelled operationally, following the exact
matching semantics of Python `re` (leftmost match, greedy `\d+`/`\s*`/run
quantifiers, lazy `.*?` stopping at the first `$` position, where `$` in
MULTILINE mode matches before each newline and at the end, and otherwise
at the end or just before a final newline).  Scanners that jump over a
matched region use an explicit fuel argument (initialised to the string
length by their wrappers, which is always sufficient since every match
consumes at least one character) so that all definitions are structurally
recursive and kernel-computable.
-/

/-! ## Basic string utilities (Python semantics) -/

/-- Python `\s` (ASCII part): the whitespace characters stripped by
`str.strip()` and matched by `\s*` in the source's regexes. -/
def isPySpace (c : Char) : Bool :=
  c == ' ' || c == '\t' || c == '\n' || c == '\r' || c == '\x0b' || c == '\x0c'

/-- Python `str.strip()` on a list of characters. -/
def pyStrip (l : List Char) : List Char :=
  ((l.dropWhile isPySpace).reverse.dropWhile isPySpace).reverse

/-- Python `str.strip()` on a `String`. -/
def pyStripS (s : String) : String :=
  String.mk (pyStrip s.data)

/-- ASCII digit, as matched by `\d` in the source's regexes. -/
def isDigitChar (c : Char) : Bool :=
  '0' ≤ c && c ≤ '9'

/-- Python `int(...)` of a run of ASCII digits. -/
def digitsVal (ds : List Char) : Nat :=
  ds.foldl (fun a c => a * 10 + (c.toNat - 48)) 0

/-! ## Python dict (keyed map) semantics -/

/-- Python `d[k] = v`: update in place when the key is present (keeping its
position), else append at the end. -/
def dictInsert {α β : Type} [DecidableEq α] (m : List (α × β)) (k : α) (v : β) :
    List (α × β) :=
  if m.any (fun p => p.1 == k) then
    m.map (fun p => if p.1 == k then (k, v) else p)
  else
    m ++ [(k, v)]

/-- Python `d.get(k)` / `k in d` lookup. -/
def dictGet {α β : Type} [DecidableEq α] (m : List (α × β)) (k : α) : Option β :=
  (m.find? (fun p => p.1 == k)).map Prod.snd

/-- Python `set(d.keys())`. -/
def dictKeys {α β : Type} [DecidableEq α] (m : List (α × β)) : Finset α :=
  (m.map Prod.fst).toFinset

/-! ## The unwanted-pattern table of `parse_numbered_text`
(`src/helper/translation_processor.py`, lines 459-476).

Each source pattern has the shape `PREFIX.*?$`: either a run of at least
three copies of a separator character (`\*{3,}`, `---+`, `={3,}`, `_{3,}`)
or a literal conversational phrase matched case-insensitively.  Since
`.*?` is lazy, a match always extends from the prefix exactly to the next
`$` position. -/

inductive TrailerPat where
  | sepRun (c : Char)
  | phrase (s : String)

/-- Case folding for `re.IGNORECASE`: ASCII letters, plus the uppercase
forms of the accented Vietnamese letters that occur in the source's
patterns. -/
def charFold (c : Char) : Char :=
  if 'A' ≤ c && c ≤ 'Z' then Char.ofNat (c.toNat + 32)
  else if c = 'Ạ' then 'ạ'
  else if c = 'Ó' then 'ó'
  else if c = 'À' then 'à'
  else if c = 'Ò' then 'ò'
  else if c = 'Ố' then 'ố'
  else if c = 'Ầ' then 'ầ'
  else if c = 'Ế' then 'ế'
  else if c = 'Ã' then 'ã'
  else if c = 'Ô' then 'ô'
  else c

/-- Case-insensitive "starts with": the literal pattern `p` matches at the
head of `s` under `re.IGNORECASE`. -/
def foldStartsWith : List Char → List Char → Bool
  | [], _ => true
  | _ :: _, [] => false
  | p :: ps, c :: cs => charFold p == charFold c && foldStartsWith ps cs

/-- Attempt to match a pattern's prefix at the head of `s`; returns the
number of characters the prefix consumes.  A separator run is greedy
(maximal run, as `{3,}` is greedy), a phrase consumes its own length. -/
def patTry (pat : TrailerPat) (s : List Char) : Option Nat :=
  match pat with
  | .sepRun c => let k := (s.takeWhile (· == c)).length
                 if 3 ≤ k then some k else none
  | .phrase p => if foldStartsWith p.data s then some p.data.length else none

/-- The `$` of `re.MULTILINE`: after the lazy `.*?`, the match ends at the
first end-of-line, so the remaining input is the suffix starting at the
next newline (the newline itself is not consumed). -/
def mlDollar (s : List Char) : List Char :=
  s.dropWhile (fun c => !(c == '\n'))

/-- The `$` without `re.MULTILINE` (with `re.DOTALL`): the lazy `.*?`
extends to the end of the string, or to just before a final newline if the
string ends with one. -/
def endDollar (s : List Char) : List Char :=
  if s.getLast? == some '\n' then ['\n'] else []

/-- One `re.sub(pattern, '', text)` pass: scan left to right; at a match,
drop the prefix, jump past the lazy `.*?$` region using `dollar`, and
continue after it (non-overlapping matches); otherwise keep the character.
`fuel` bounds the recursion and is always at least the input length at
every call (each match consumes at least one character). -/
def subScanF (dollar : List Char → List Char) (tryM : List Char → Option Nat) :
    Nat → List Char → List Char
  | _, [] => []
  | 0, _ :: _ => []
  | fuel + 1, c :: rest =>
    match tryM (c :: rest) with
    | some k => subScanF dollar tryM fuel (dollar ((c :: rest).drop k))
    | none => c :: subScanF dollar tryM fuel rest

/-- `re.sub(pat + '.*?$', '', s, flags=re.IGNORECASE|re.DOTALL|re.MULTILINE)`. -/
def subPatML (p : TrailerPat) (s : List Char) : List Char :=
  subScanF mlDollar (patTry p) s.length s

/-- `re.sub(pat + '.*?$', '', s, flags=re.IGNORECASE|re.DOTALL)`. -/
def subPatEnd (p : TrailerPat) (s : List Char) : List Char :=
  subScanF endDollar (patTry p) s.length s

/-- The `unwanted_patterns` list, in source order
(`translation_processor.py` lines 459-476). -/
def unwantedPats : List TrailerPat :=
  [.sepRun '*', .sepRun '-', .sepRun '=', .sepRun '_',
   .phrase "Bạn có hài lòng", .phrase "Bạn có muốn", .phrase "Có cần",
   .phrase "Nếu bạn", .phrase "Hãy cho tôi biết",
   .phrase "Would you like", .phrase "Do you want", .phrase "Is there",
   .phrase "Let me know", .phrase "Please let me know"]

/-- Lines 479-481: apply every cleaning pattern, in order, to the whole
text (flags `IGNORECASE|DOTALL|MULTILINE`). -/
def cleanTextML (s : List Char) : List Char :=
  unwantedPats.foldl (fun acc p => subPatML p acc) s

/-- Lines 491-496: per-match content cleanup — `strip`, apply every
pattern with flags `IGNORECASE|DOTALL`, `strip` again. -/
def cleanContent (c : List Char) : List Char :=
  pyStrip (unwantedPats.foldl (fun acc p => subPatEnd p acc) (pyStrip c))

/-! ## The numbered-line extraction regex
`(\d+)\.\s*(.*?)(?=\n\d+\.|$)` with `re.DOTALL` (line 484). -/

/-- Does `s` begin with `\d+\.` (a digit run followed by a dot)? -/
def numDotAt (s : List Char) : Bool :=
  let ds := s.takeWhile isDigitChar
  !ds.isEmpty && (s.drop ds.length).head? == some '.'

/-- The lookahead `(?=\n\d+\.|$)` (no MULTILINE): stop at a newline that
begins `\n\d+\.`, at the end of the string, or just before a final
newline. -/
def contentStop : List Char → Bool
  | [] => true
  | '\n' :: rest => rest.isEmpty || numDotAt rest
  | _ => false

/-- Consume the lazy `(.*?)` up to the first lookahead position; returns
the content and the remaining suffix (the lookahead is not consumed). -/
def takeContent : List Char → List Char × List Char
  | [] => ([], [])
  | c :: rest =>
    if contentStop (c :: rest) then ([], c :: rest)
    else
      let p := takeContent rest
      (c :: p.1, p.2)

/-- `re.findall(r'(\d+)\.\s*(.*?)(?=\n\d+\.|$)', s, re.DOTALL)`:
left-to-right non-overlapping scan.  A match needs a (greedily maximal)
digit run followed by `.`; `\s*` then greedily consumes whitespace
(including newlines, and never backtracks, since the lazy content can
always extend to a `$` position); the content runs to the first lookahead
position, where scanning resumes.  `fuel` is at least the input length at
every call. -/
def findMatchesF : Nat → List Char → List (Nat × List Char)
  | 0, _ => []
  | _, [] => []
  | fuel + 1, c :: rest =>
    let s := c :: rest
    let ds := s.takeWhile isDigitChar
    if !ds.isEmpty && (s.drop ds.length).head? == some '.' then
      let afterWs := (s.drop (ds.length + 1)).dropWhile isPySpace
      let p := takeContent afterWs
      (digitsVal ds, p.1) :: findMatchesF fuel p.2
    else
      findMatchesF fuel rest

/-! ## `TranslationProcessor.parse_numbered_text` (lines 453-532) -/

/-- Lines 488-500: build `numbered_lines` — clean each match's content,
keep only line numbers in `1..expected_count`, last occurrence wins. -/
def buildMap (n : Nat) (ms : List (Nat × List Char)) : List (Nat × List Char) :=
  ms.foldl
    (fun m p =>
      let content := cleanContent p.2
      if 1 ≤ p.1 && p.1 ≤ n then dictInsert m p.1 content else m)
    []

/-- `re.search(r'^(.*?)(?=\n?2\.)', cleaned_text, re.DOTALL)` (line 505):
the shortest prefix whose end is followed by `2.` or by `\n2.`. -/
def searchPre2 : List Char → Option (List Char)
  | [] => none
  | c :: rest =>
    if "2.".data.isPrefixOf (c :: rest) || ('\n' :: "2.".data).isPrefixOf (c :: rest) then
      some []
    else
      (searchPre2 rest).map (c :: ·)

/-- Lines 502-509: if line 1 is absent but line 2 present, take the text
before the `2.` marker as line 1 (unless empty after stripping, or itself
`\d+\.`-numbered). -/
def repairMap (cleaned : List Char) (m : List (Nat × List Char)) :
    List (Nat × List Char) :=
  if (dictGet m 1).isNone && !(dictGet m 2).isNone then
    match searchPre2 cleaned with
    | some pre =>
      let pt := pyStrip pre
      if !pt.isEmpty && !numDotAt pt then dictInsert m 1 pt else m
    | none => m
  else m

/-- Lines 511-516: walk `1..expected_count`; a missing line number becomes
the empty string. -/
def fillLines (n : Nat) (m : List (Nat × List Char)) : List (List Char) :=
  (List.range' 1 n).map (fun i => (dictGet m i).getD [])

/-- Python `str.split('\n')`: always at least one piece, empty pieces
kept. -/
def splitNl : List Char → List (List Char)
  | [] => [[]]
  | '\n' :: rest => [] :: splitNl rest
  | c :: rest =>
    match splitNl rest with
    | [] => [[c]]
    | h :: t => (c :: h) :: t

/-- `re.sub(r'^\d+\.\s*', '', line)`: drop a leading digit run, dot and
following whitespace (anchored, so at most one removal). -/
def stripLeadNum (l : List Char) : List Char :=
  let ds := l.takeWhile isDigitChar
  if !ds.isEmpty && (l.drop ds.length).head? == some '.' then
    (l.drop (ds.length + 1)).dropWhile isPySpace
  else l

/-- Lines 520-526 (fallback branch): strip the leading `N.` prefix, strip,
apply every pattern with `re.IGNORECASE` (the pieces contain no newline,
so this coincides with the DOTALL end-of-string variant), strip again. -/
def cleanFallbackLine (l : List Char) : List Char :=
  pyStrip (unwantedPats.foldl (fun acc p => subPatEnd p acc) (pyStrip (stripLeadNum l)))

/-- The cleaned text of `parse_numbered_text` (lines 479-481). -/
def cleanedOf (text : String) : List Char :=
  cleanTextML text.data

/-- The raw `matches` list of `parse_numbered_text` (lines 484-485). -/
def matchesOf (text : String) : List (Nat × List Char) :=
  findMatchesF (cleanedOf text).length (cleanedOf text)

/-- The final `numbered_lines` map (bounds-filtered, cleaned, repaired). -/
def numberedMapOf (text : String) (n : Nat) : List (Nat × List Char) :=
  repairMap (cleanedOf text) (buildMap n (matchesOf text))

/-- `TranslationProcessor.parse_numbered_text(text, expected_count)`
(`src/helper/translation_processor.py`, lines 453-532). -/
def parse_numbered_text (text : String) (n : Nat) : List String :=
  if (matchesOf text).isEmpty then
    let taken := ((splitNl (pyStrip (cleanedOf text))).take n).map cleanFallbackLine
    (taken ++ List.replicate (n - taken.length) []).map String.mk
  else
    (fillLines n (numberedMapOf text n)).map String.mk

/-! ## `WebBotServices.parse_numbered_text` (`src/helper/web_bot_services.py`,
lines 296-325): same extraction regex on the raw text, no cleaning
patterns, no bounds filter, no line-1 repair. -/

/-- Line 306: `{int(num): content.strip() for num, content in matches}`. -/
def wbsBuildMap (ms : List (Nat × List Char)) : List (Nat × List Char) :=
  ms.foldl (fun m p => dictInsert m p.1 (pyStrip p.2)) []

/-- `WebBotServices.parse_numbered_text(text, expected_count)`. -/
def wbs_parse_numbered_text (text : String) (n : Nat) : List String :=
  let ms := findMatchesF text.data.length text.data
  if ms.isEmpty then
    let taken := ((splitNl (pyStrip text.data)).take n).map (fun l => pyStrip (stripLeadNum l))
    (taken ++ List.replicate (n - taken.length) []).map String.mk
  else
    (fillLines n (wbsBuildMap ms)).map String.mk

/-! ## Result store, classification and planners -/

/-- One row of the output table: columns `id, raw, edit, status`. -/
structure OutRecord where
  id : Int
  raw : String
  edit : String
  status : String
deriving DecidableEq, Repr

/-- The completed/failed classification applied to an `edit` cell
(`prompt_helper.py` line 142, `translation_processor.py` line 293,
`bot_controller.py` line 93):
`edit_value and str(edit_value).strip() and str(edit_value).strip() != 'nan'`. -/
def isValidEdit (edit : String) : Bool :=
  edit != "" && pyStripS edit != "" && pyStripS edit != "nan"

/-- The state built while loading an existing output file: the
`existing_results` dict and the `completed_ids` / `failed_ids` sets. -/
structure LoadState where
  results : List (Int × OutRecord)
  completed : Finset Int
  failed : Finset Int
deriving DecidableEq

/-- Processing one row of the existing output file
(`prompt_helper.py` lines 131-145, and the identical loops in
`process_with_api` and `run_web_service`): upsert the record, then add the
id to `completed_ids` if its edit is valid, else to `failed_ids`. -/
def loadStep (st : LoadState) (row : OutRecord) : LoadState :=
  let results := dictInsert st.results row.id row
  if isValidEdit row.edit then
    { results := results, completed := insert row.id st.completed, failed := st.failed }
  else
    { results := results, completed := st.completed, failed := insert row.id st.failed }

/-- `PromptHelper.load_existing_results` / the inline loading loops:
fold over the rows of the existing output file. -/
def loadExistingResults (rows : List OutRecord) : LoadState :=
  rows.foldl loadStep ⟨[], ∅, ∅⟩

/-- `process_with_api` lines 305-308:
`ids_to_process = sorted(missing_ids | retry_ids)` where
`missing_ids = all_input_ids - set(existing_results.keys())` and
`retry_ids = all_input_ids & failed_ids`.  Note: `completed_ids` is NOT
subtracted here. -/
def pendingApi (allIds : Finset Int) (st : LoadState) : List Int :=
  ((allIds \ dictKeys st.results) ∪ (allIds ∩ st.failed)).sort (· ≤ ·)

/-- `run_web_service` lines 124-127:
`ids_to_process = sorted((missing_ids | retry_ids) - completed_ids)`. -/
def pendingWeb (allIds : Finset Int) (st : LoadState) : List Int :=
  (((allIds \ dictKeys st.results) ∪ (allIds ∩ st.failed)) \ st.completed).sort (· ≤ ·)

/-- `PromptHelper.find_next_batch` lines 179-185 (manual mode):
`ids_to_process = sorted(all_input_ids - completed_ids)`. -/
def pendingManual (allIds : Finset Int) (st : LoadState) : List Int :=
  (allIds \ st.completed).sort (· ≤ ·)

/-! ## The web-automation batch loop (`BotController.run_web_service`,
`src/gui/bot_controller.py` lines 146-224) -/

/-- One row of the (filtered) input table: columns `id`, `text`. -/
structure InRow where
  id : Int
  text : String
deriving DecidableEq, Repr

/-- Stable insertion into a list sorted ascending by key. -/
def insertByKey {α : Type} (key : α → Int) (x : α) : List α → List α
  | [] => [x]
  | y :: ys => if key y ≤ key x then y :: insertByKey key x ys else x :: y :: ys

/-- `sort_values('id')`: sort ascending by key. -/
def sortByKey {α : Type} (key : α → Int) (l : List α) : List α :=
  l.foldl (fun acc x => insertByKey key x acc) []

/-- Line 157: `batch = df[df['id'].isin(batch_ids)].sort_values('id')`. -/
def materializeBatch (df : List InRow) (batchIds : List Int) : List InRow :=
  sortByKey InRow.id (df.filter (fun r => batchIds.contains r.id))

/-- The record upserted for a failed batch row (lines 198-205 in web mode,
lines 408-414 in API mode): empty edit, status `"failed"`. -/
def failedRecord (r : InRow) : OutRecord :=
  ⟨r.id, r.text, "", "failed"⟩

/-- The record upserted per (row, translation) pair on web-mode success
(lines 187-194): status is always `""`. -/
def webSuccessRecord (r : InRow) (t : String) : OutRecord :=
  ⟨r.id, r.text, t, ""⟩

/-- The record upserted per (row, translation) pair on API-mode success
(`translation_processor.py` lines 398-404):
`'' if translation else 'failed'`. -/
def apiSuccessRecord (r : InRow) (t : String) : OutRecord :=
  ⟨r.id, r.text, t, if t != "" then "" else "failed"⟩

/-- Python truthiness of the `translations` value returned by the backend:
`if translations:` is true exactly for a non-empty list. -/
def truthyList : Option (List String) → Bool
  | some (_ :: _) => true
  | _ => false

/-- Merging one web-mode batch result into `existing_results`
(lines 184-205): on success, upsert a `webSuccessRecord` per
`zip(batch.iterrows(), translations)` pair; otherwise mark every batch row
failed. -/
def webBatchStep (tr : Option (List String)) (batch : List InRow)
    (results : List (Int × OutRecord)) : List (Int × OutRecord) :=
  if truthyList tr then
    (batch.zip (tr.getD [])).foldl
      (fun m p => dictInsert m p.1.id (webSuccessRecord p.1 p.2)) results
  else
    batch.foldl (fun m r => dictInsert m r.id (failedRecord r)) results

/-- Merging one API-mode batch result (`translation_processor.py` lines
391-414): `if translated_text:` guards success; the response is parsed
with `parse_numbered_text` against the batch length, and each pair is
upserted; otherwise every batch row is marked failed. -/
def apiBatchStep (tr : Option String) (batch : List InRow)
    (results : List (Int × OutRecord)) : List (Int × OutRecord) :=
  match tr with
  | some t =>
    if t != "" then
      (batch.zip (parse_numbered_text t batch.length)).foldl
        (fun m p => dictInsert m p.1.id (apiSuccessRecord p.1 p.2)) results
    else
      batch.foldl (fun m r => dictInsert m r.id (failedRecord r)) results
  | none => batch.foldl (fun m r => dictInsert m r.id (failedRecord r)) results

/-- Line 143: `total_batches = (len(ids_to_process) - 1) // batch_size + 1
if len(ids_to_process) > 0 else 0`. -/
def totalBatches (numIds bs : Nat) : Nat :=
  if numIds > 0 then (numIds - 1) / bs + 1 else 0

/-- The loop state of `run_web_service`: the results dict, the batch
numbers actually sent to the backend, and whether the `running` flag has
been seen false (after which the loop body `break`s). -/
structure WebRunState where
  results : List (Int × OutRecord)
  dispatched : List Nat
  stopped : Bool
deriving Repr

/-- One iteration of the batch loop of `run_web_service` (lines 146-224)
for batch number `b`.  `backend b` is the pair
`(translations, error)` returned by
`WebBotServices.run_generic_bot`; `stop b` is the value of
`not self.running` polled at the top of iteration `b`.  An empty
materialized batch is skipped (`continue`, line 159-161) without
dispatching. -/
def webLoopStep (df : List InRow) (ids : List Int) (bs : Nat)
    (backend : Nat → Option (List String) × Option String) (stop : Nat → Bool)
    (st : WebRunState) (b : Nat) : WebRunState :=
  if st.stopped then st
  else if stop b then { st with stopped := true }
  else
    let batchIds := (ids.drop ((b - 1) * bs)).take bs
    let batch := materializeBatch df batchIds
    if batch.isEmpty then st
    else
      { st with
        results := webBatchStep (backend b).1 batch st.results,
        dispatched := st.dispatched ++ [b] }

/-- The full batch loop of `run_web_service`: iterate
`batch_num in range(1, total_batches + 1)` from the preloaded
`existing_results`. -/
def runWebLoop (df : List InRow) (ids : List Int) (bs : Nat)
    (backend : Nat → Option (List String) × Option String) (stop : Nat → Bool)
    (initResults : List (Int × OutRecord)) : WebRunState :=
  (List.range' 1 (totalBatches ids.length bs)).foldl
    (webLoopStep df ids bs backend stop) ⟨initResults, [], false⟩

/-! ## Flush and progress (`translation_processor.py` lines 21-41,
419-424; `bot_controller.py` lines 207-219) -/

/-- Flushing the results dict: `pd.DataFrame(list(existing_results.values()))
.sort_values('id').to_csv(...)` — the values, sorted ascending by id. -/
def flushRecords (m : List (Int × OutRecord)) : List OutRecord :=
  sortByKey OutRecord.id (m.map Prod.snd)

/-- Whether a written `edit` cell reads back as NaN under
`pd.read_csv` (an empty cell, or the `'nan'` sentinel, become NaN, making
`notna` false). -/
def cellIsNa (s : String) : Bool :=
  s == "" || s == "nan"

/-- `TranslationProcessor.update_progress` (lines 21-41): `processed_rows =
len(output_df[output_df['edit'].notna() & (output_df['edit'] != '')])` —
the count of rows of the output file, whatever their ids, whose edit cell
is present and non-empty. -/
def updateProgressCount (rows : List OutRecord) : Nat :=
  (rows.filter (fun r => !cellIsNa r.edit && r.edit != "")).length

/-! ## Lemmas about the dict model -/

theorem find?_map_update_ne {α β : Type} [DecidableEq α] (t : List (α × β)) (k i : α) (v : β)
    (h : i ≠ k) :
    (t.map (fun p => if p.1 == k then (k, v) else p)).find? (fun p => p.1 == i) =
      t.find? (fun p => p.1 == i) := by
  induction t with
  | nil => rfl
  | cons q r ih =>
    by_cases hq : q.1 = k
    · have hb : (q.1 == k) = true := beq_iff_eq.mpr hq
      have h1 : ¬ ((fun (p : α × β) => p.1 == i) (k, v)) = true := by
        simp only [beq_iff_eq]; exact fun e => h e.symm
      have h2 : ¬ ((fun (p : α × β) => p.1 == i) q) = true := by
        simp only [beq_iff_eq, hq]; exact fun e => h e.symm
      simp only [List.map_cons, hb, if_true]
      rw [@List.find?_cons_of_neg _ (fun p => p.1 == i) (k, v) _ h1,
        @List.find?_cons_of_neg _ (fun p => p.1 == i) q _ h2, ih]
    · have hb : (q.1 == k) = false := beq_eq_false_iff_ne.mpr hq
      simp only [List.map_cons, hb, Bool.false_eq_true, if_false]
      by_cases hqi : q.1 = i
      · have hp : ((fun (p : α × β) => p.1 == i) q) = true := beq_iff_eq.mpr hqi
        rw [@List.find?_cons_of_pos _ (fun p => p.1 == i) q _ hp,
          @List.find?_cons_of_pos _ (fun p => p.1 == i) q _ hp]
      · have hp : ¬ ((fun (p : α × β) => p.1 == i) q) = true := by
          simp only [beq_iff_eq]; exact hqi
        rw [@List.find?_cons_of_neg _ (fun p => p.1 == i) q _ hp,
          @List.find?_cons_of_neg _ (fun p => p.1 == i) q _ hp, ih]

theorem dictGet_dictInsert {α β : Type} [DecidableEq α] (m : List (α × β)) (k i : α) (v : β) :
    dictGet (dictInsert m k v) i = if i = k then some v else dictGet m i := by
  induction m with
  | nil =>
    by_cases h : i = k
    · simp [dictInsert, dictGet, List.find?, h]
    · have hb : (k == i) = false := beq_eq_false_iff_ne.mpr (fun e => h e.symm)
      simp [dictInsert, dictGet, List.find?, h, hb]
  | cons p t ih =>
    by_cases hp : p.1 = k
    · have hcond : ((p :: t).any fun q => q.1 == k) = true := by
        simp [List.any_cons, beq_iff_eq, hp]
      rw [dictInsert, if_pos hcond]
      have hbk : (p.1 == k) = true := beq_iff_eq.mpr hp
      simp only [List.map_cons, hbk, if_true]
      by_cases hik : i = k
      · subst hik
        have hpos : ((fun (p : α × β) => p.1 == i) (i, v)) = true := beq_iff_eq.mpr rfl
        rw [dictGet, @List.find?_cons_of_pos _ (fun p => p.1 == i) (i, v) _ hpos, if_pos rfl]
        rfl
      · have h1 : ¬ ((fun (p : α × β) => p.1 == i) (k, v)) = true := by
          simp only [beq_iff_eq]; exact fun e => hik e.symm
        have h2 : ¬ ((fun (p : α × β) => p.1 == i) p) = true := by
          simp only [beq_iff_eq, hp]; exact fun e => hik e.symm
        rw [dictGet, @List.find?_cons_of_neg _ (fun p => p.1 == i) (k, v) _ h1, if_neg hik,
          find?_map_update_ne t k i v hik, dictGet,
          @List.find?_cons_of_neg _ (fun p => p.1 == i) p _ h2]
    · have hbk : (p.1 == k) = false := beq_eq_false_iff_ne.mpr hp
      have hsplit : dictInsert (p :: t) k v = p :: dictInsert t k v := by
        rw [dictInsert, dictInsert]
        by_cases ht : t.any (fun q => q.1 == k)
        · have hcond : ((p :: t).any fun q => q.1 == k) = true := by
            simp [List.any_cons, ht]
          rw [if_pos hcond, if_pos ht]
          simp only [List.map_cons, hbk, Bool.false_eq_true, if_false]
        · have hcond : ¬ ((p :: t).any fun q => q.1 == k) = true := by
            simp only [List.any_cons, Bool.or_eq_true, hbk, Bool.false_eq_true, false_or]
            exact ht
          rw [if_neg hcond, if_neg ht]
          rfl
      rw [hsplit]
      by_cases hpi : p.1 = i
      · have hb : ((fun (p : α × β) => p.1 == i) p) = true := beq_iff_eq.mpr hpi
        have hik : ¬ i = k := fun e => hp (hpi ▸ e ▸ rfl)
        rw [dictGet, @List.find?_cons_of_pos _ (fun p => p.1 == i) p _ hb, if_neg hik,
          dictGet, @List.find?_cons_of_pos _ (fun p => p.1 == i) p _ hb]
      · have hb : ¬ ((fun (p : α × β) => p.1 == i) p) = true := by
          simp only [beq_iff_eq]; exact hpi
        rw [dictGet, @List.find?_cons_of_neg _ (fun p => p.1 == i) p _ hb]
        have hcast : Option.map Prod.snd (List.find? (fun p => p.1 == i) (dictInsert t k v)) =
            dictGet (dictInsert t k v) i := rfl
        rw [hcast, ih]
        by_cases hik : i = k
        · rw [if_pos hik, if_pos hik]
        · rw [if_neg hik, if_neg hik]
          unfold dictGet
          rw [@List.find?_cons_of_neg _ (fun p => p.1 == i) p _ hb]

theorem dictGet_dictInsert_self {α β : Type} [DecidableEq α] (m : List (α × β)) (k : α) (v : β) :
    dictGet (dictInsert m k v) k = some v := by
  rw [dictGet_dictInsert, if_pos rfl]

theorem dictGet_dictInsert_ne {α β : Type} [DecidableEq α] (m : List (α × β)) (k i : α) (v : β)
    (h : k ≠ i) : dictGet (dictInsert m k v) i = dictGet m i := by
  rw [dictGet_dictInsert, if_neg (fun e => h e.symm)]

theorem dictGet_foldl_frame {α β γ : Type} [DecidableEq α] (key : γ → α) (val : γ → β)
    (l : List γ) (m : List (α × β)) (i : α) (h : ∀ r ∈ l, key r ≠ i) :
    dictGet (l.foldl (fun acc r => dictInsert acc (key r) (val r)) m) i = dictGet m i := by
  induction l generalizing m with
  | nil => rfl
  | cons q t ih =>
    have hq : key q ≠ i := h q (List.mem_cons_self q t)
    have ht : ∀ r ∈ t, key r ≠ i := fun r hr => h r (List.mem_cons_of_mem q hr)
    rw [List.foldl_cons, ih _ ht, dictGet_dictInsert_ne _ _ _ _ hq]

theorem dictGet_foldl_mem {α β γ : Type} [DecidableEq α] (key : γ → α) (val : γ → β)
    (l : List γ) (m : List (α × β)) (p : γ) (hp : p ∈ l) (hnd : (l.map key).Nodup) :
    dictGet (l.foldl (fun acc r => dictInsert acc (key r) (val r)) m) (key p) = some (val p) := by
  induction l generalizing m with
  | nil => cases hp
  | cons q t ih =>
    simp only [List.map_cons, List.nodup_cons] at hnd
    rcases List.mem_cons.mp hp with rfl | hpt
    · have hfresh : ∀ r ∈ t, key r ≠ key p := by
        intro r hr hc
        exact hnd.1 (hc ▸ List.mem_map_of_mem key hr)
      rw [List.foldl_cons, dictGet_foldl_frame key val t _ (key p) hfresh]
      exact dictGet_dictInsert_self m (key p) (val p)
    · rw [List.foldl_cons]
      exact ih _ hpt hnd.2

/-! ## Lemmas about loading the existing output file -/

theorem dictKeys_dictInsert {α β : Type} [DecidableEq α] (m : List (α × β)) (k : α) (v : β) :
    dictKeys (dictInsert m k v) = insert k (dictKeys m) := by
  unfold dictInsert
  by_cases hany : (m.any fun p => p.1 == k) = true
  · rw [if_pos hany]
    have hmem : k ∈ dictKeys m := by
      rcases List.any_eq_true.mp hany with ⟨p, hp, hpk⟩
      have he : p.1 = k := beq_iff_eq.mp hpk
      unfold dictKeys
      rw [List.mem_toFinset]
      exact he ▸ List.mem_map_of_mem Prod.fst hp
    have hfst : (m.map fun p => if p.1 == k then (k, v) else p).map Prod.fst =
        m.map Prod.fst := by
      rw [List.map_map]
      apply List.map_congr_left
      intro p _
      by_cases hp : p.1 = k
      · simp [beq_iff_eq.mpr hp, hp]
      · simp [beq_eq_false_iff_ne.mpr hp, hp]
    unfold dictKeys
    rw [hfst]
    exact (Finset.insert_eq_self.mpr hmem).symm
  · rw [if_neg hany]
    unfold dictKeys
    rw [List.map_append, List.toFinset_append]
    simp [Finset.union_comm, Finset.insert_eq]

theorem load_keys_union (rows : List OutRecord) :
    ∀ st : LoadState, dictKeys st.results = st.completed ∪ st.failed →
    dictKeys (rows.foldl loadStep st).results =
      (rows.foldl loadStep st).completed ∪ (rows.foldl loadStep st).failed := by
  induction rows with
  | nil => intro st h; exact h
  | cons r t ih =>
    intro st h
    rw [List.foldl_cons]
    apply ih
    unfold loadStep
    by_cases hv : isValidEdit r.edit = true
    · simp only [hv, if_true]
      rw [dictKeys_dictInsert, h, Finset.insert_union]
    · simp only [hv, Bool.false_eq_true, if_false]
      rw [dictKeys_dictInsert, h, Finset.union_insert]

theorem loadExistingResults_keys (rows : List OutRecord) :
    dictKeys (loadExistingResults rows).results =
      (loadExistingResults rows).completed ∪ (loadExistingResults rows).failed := by
  apply load_keys_union
  simp [dictKeys]

theorem load_disjoint_aux (rows : List OutRecord) :
    ∀ st : LoadState, (rows.map OutRecord.id).Nodup →
    (∀ r ∈ rows, r.id ∉ st.completed ∧ r.id ∉ st.failed) →
    st.completed ∩ st.failed = ∅ →
    (rows.foldl loadStep st).completed ∩ (rows.foldl loadStep st).failed = ∅ := by
  induction rows with
  | nil => intro st _ _ h; exact h
  | cons r t ih =>
    intro st hnd hfresh hdisj
    rw [List.foldl_cons]
    simp only [List.map_cons, List.nodup_cons] at hnd
    have hr := hfresh r (List.mem_cons_self r t)
    refine ih _ hnd.2 ?_ ?_
    · intro q hq
      have hqid : q.id ≠ r.id := by
        intro e
        exact hnd.1 (e ▸ List.mem_map_of_mem OutRecord.id hq)
      have hq2 := hfresh q (List.mem_cons_of_mem r hq)
      unfold loadStep
      by_cases hv : isValidEdit r.edit = true
      · simp only [hv, if_true]
        refine ⟨?_, hq2.2⟩
        intro hmem
        rcases Finset.mem_insert.mp hmem with e | hm
        · exact hqid e
        · exact hq2.1 hm
      · simp only [hv, Bool.false_eq_true, if_false]
        refine ⟨hq2.1, ?_⟩
        intro hmem
        rcases Finset.mem_insert.mp hmem with e | hm
        · exact hqid e
        · exact hq2.2 hm
    · unfold loadStep
      by_cases hv : isValidEdit r.edit = true
      · simp only [hv, if_true]
        rw [Finset.eq_empty_iff_forall_not_mem]
        intro x hx
        rcases Finset.mem_inter.mp hx with ⟨hx1, hx2⟩
        rcases Finset.mem_insert.mp hx1 with e | hm
        · exact hr.2 (e ▸ hx2)
        · exact Finset.eq_empty_iff_forall_not_mem.mp hdisj x (Finset.mem_inter.mpr ⟨hm, hx2⟩)
      · simp only [hv, Bool.false_eq_true, if_false]
        rw [Finset.eq_empty_iff_forall_not_mem]
        intro x hx
        rcases Finset.mem_inter.mp hx with ⟨hx1, hx2⟩
        rcases Finset.mem_insert.mp hx2 with e | hm
        · exact hr.1 (e ▸ hx1)
        · exact Finset.eq_empty_iff_forall_not_mem.mp hdisj x (Finset.mem_inter.mpr ⟨hx1, hm⟩)

theorem loadExistingResults_disjoint (rows : List OutRecord)
    (hnd : (rows.map OutRecord.id).Nodup) :
    (loadExistingResults rows).completed ∩ (loadExistingResults rows).failed = ∅ := by
  refine load_disjoint_aux rows _ hnd ?_ ?_
  · intro r _
    exact ⟨Finset.not_mem_empty r.id, Finset.not_mem_empty r.id⟩
  · exact Finset.empty_inter ∅

/-- Claim C10: when loading an existing output file, whether an id counts
as completed is determined solely by its edit value — completed iff
`str(edit).strip()` is non-empty and not the literal string `'nan'` — and
the status column has no influence; in particular a record with status
`"failed"` but non-empty edit is classified completed, and a record with
status `""` but empty edit is classified failed. -/
theorem claim10_completed_classification :
    (∀ e : String, isValidEdit e = true ↔ (pyStripS e ≠ "" ∧ pyStripS e ≠ "nan"))
    ∧ (∀ (st : LoadState) (n : Int) (raw1 raw2 edit s1 s2 : String),
        (loadStep st ⟨n, raw1, edit, s1⟩).completed = (loadStep st ⟨n, raw2, edit, s2⟩).completed
        ∧ (loadStep st ⟨n, raw1, edit, s1⟩).failed = (loadStep st ⟨n, raw2, edit, s2⟩).failed)
    ∧ (5 : Int) ∈ (loadExistingResults [⟨5, "r", "x", "failed"⟩]).completed
    ∧ (5 : Int) ∈ (loadExistingResults [⟨5, "r", "", ""⟩]).failed := by
  refine ⟨?_, ?_, ?_, ?_⟩
  · intro e
    unfold isValidEdit
    simp only [Bool.and_eq_true, bne_iff_ne, ne_eq]
    constructor
    · rintro ⟨⟨_, h2⟩, h3⟩
      exact ⟨h2, h3⟩
    · rintro ⟨h2, h3⟩
      refine ⟨⟨?_, h2⟩, h3⟩
      intro he
      subst he
      exact h2 rfl
  · intro st n raw1 raw2 edit s1 s2
    unfold loadStep
    by_cases hv : isValidEdit edit = true
    · simp [hv]
    · simp [hv]
  · decide
  · decide

/-- Claim C9: merging one batch's results is an upsert by id: for every id
not among the dispatched batch's row ids, its record in the store after
the merge is exactly the record it had before, whether the batch succeeded
or failed, in both the web-automation mode and the API mode. -/
theorem claim9_merge_frame (tr : Option (List String)) (trA : Option String)
    (batch : List InRow) (results : List (Int × OutRecord)) (i : Int)
    (h : i ∉ batch.map InRow.id) :
    dictGet (webBatchStep tr batch results) i = dictGet results i ∧
    dictGet (apiBatchStep trA batch results) i = dictGet results i := by
  have hb : ∀ r ∈ batch, r.id ≠ i := by
    intro r hr he
    exact h (he ▸ List.mem_map_of_mem InRow.id hr)
  constructor
  · unfold webBatchStep
    by_cases ht : truthyList tr = true
    · rw [if_pos ht]
      refine dictGet_foldl_frame (fun p : InRow × String => p.1.id) (fun p : InRow × String => webSuccessRecord p.1 p.2) _ _ _ ?_
      intro p hp
      obtain ⟨r, t⟩ := p
      exact hb r (List.of_mem_zip hp).1
    · rw [if_neg ht]
      exact dictGet_foldl_frame InRow.id failedRecord batch results i hb
  · cases trA with
    | none => exact dictGet_foldl_frame InRow.id failedRecord batch results i hb
    | some t =>
      simp only [apiBatchStep]
      by_cases ht : (t != "") = true
      · rw [if_pos ht]
        refine dictGet_foldl_frame (fun p : InRow × String => p.1.id) (fun p : InRow × String => apiSuccessRecord p.1 p.2) _ _ _ ?_
        intro p hp
        obtain ⟨r, s⟩ := p
        exact hb r (List.of_mem_zip hp).1
      · rw [if_neg ht]
        exact dictGet_foldl_frame InRow.id failedRecord batch results i hb

/-- Witness for C9 at a concrete input. -/
theorem claim9_witness :
    (99 : Int) ∉ ([⟨1, "a"⟩] : List InRow).map InRow.id ∧
    (dictGet (webBatchStep (some ["x"]) [⟨1, "a"⟩] [(7, ⟨7, "r", "e", ""⟩)]) 99 =
        dictGet [((7 : Int), (⟨7, "r", "e", ""⟩ : OutRecord))] 99 ∧
      dictGet (apiBatchStep (some "1. y") [⟨1, "a"⟩] [(7, ⟨7, "r", "e", ""⟩)]) 99 =
        dictGet [((7 : Int), (⟨7, "r", "e", ""⟩ : OutRecord))] 99) :=
  ⟨by decide,
   claim9_merge_frame (some ["x"]) (some "1. y") [⟨1, "a"⟩] [(7, ⟨7, "r", "e", ""⟩)] 99 (by decide)⟩

/-- Counterexample to C3 as stated: with id 5 occurring in two output rows
(first with a valid edit, then with an empty one), id 5 lands in both
completed_ids and failed_ids, and the API-mode pending list computed at
run start (`process_with_api` lines 305-308, which does not subtract
completed_ids) contains 5 even though 5 ∈ completed_ids. -/
theorem claim3_counterexample :
    pendingApi {5} (loadExistingResults [⟨5, "r", "x", ""⟩, ⟨5, "r", "", ""⟩]) = [5] ∧
    (5 : Int) ∈ (loadExistingResults [⟨5, "r", "x", ""⟩, ⟨5, "r", "", ""⟩]).completed := by
  constructor
  · have h : ({5} : Finset Int) \
        dictKeys (loadExistingResults [⟨5, "r", "x", ""⟩, ⟨5, "r", "", ""⟩]).results ∪
        ({5} : Finset Int) ∩ (loadExistingResults [⟨5, "r", "x", ""⟩, ⟨5, "r", "", ""⟩]).failed =
        {5} := by decide
    unfold pendingApi
    rw [h, Finset.sort_singleton]
  · decide

/-- Claim C3 amended: the web-mode pending list
(`run_web_service` lines 124-127) never contains a completed id, for every
input-id set and output state; the API-mode pending list
(`process_with_api` lines 305-308) never contains a completed id provided
no id occurs in more than one output row. -/
theorem claim3_amended (allIds : Finset Int) (rows : List OutRecord) (x : Int) :
    (x ∈ pendingWeb allIds (loadExistingResults rows) →
      x ∉ (loadExistingResults rows).completed)
    ∧ ((rows.map OutRecord.id).Nodup →
       x ∈ pendingApi allIds (loadExistingResults rows) →
       x ∉ (loadExistingResults rows).completed) := by
  constructor
  · intro hx
    rw [pendingWeb, Finset.mem_sort] at hx
    exact (Finset.mem_sdiff.mp hx).2
  · intro hnd hx hcomp
    rw [pendingApi, Finset.mem_sort] at hx
    rcases Finset.mem_union.mp hx with hmiss | hretry
    · rcases Finset.mem_sdiff.mp hmiss with ⟨_, hnk⟩
      apply hnk
      rw [loadExistingResults_keys rows]
      exact Finset.mem_union_left _ hcomp
    · have hfail := (Finset.mem_inter.mp hretry).2
      have hd := loadExistingResults_disjoint rows hnd
      exact Finset.eq_empty_iff_forall_not_mem.mp hd x (Finset.mem_inter.mpr ⟨hcomp, hfail⟩)

/-- Witness for the amended C3 at a concrete input. -/
theorem claim3_witness :
    ((([⟨6, "r", "", ""⟩] : List OutRecord).map OutRecord.id).Nodup ∧
      (6 : Int) ∈ pendingApi {6} (loadExistingResults [⟨6, "r", "", ""⟩])) ∧
    (6 : Int) ∉ (loadExistingResults [⟨6, "r", "", ""⟩]).completed :=
  ⟨⟨by decide, by unfold pendingApi; rw [Finset.mem_sort]; decide⟩,
   (claim3_amended {6} [⟨6, "r", "", ""⟩] 6).2 (by decide)
     (by unfold pendingApi; rw [Finset.mem_sort]; decide)⟩

/-- Claim C5: for every filtered input-id set and every output-file state
in which each id occurs in at most one row, the pending-id list manual
mode derives (`find_next_batch`: sorted all ids minus completed_ids)
equals the pending-id list the automatic web loop derives
(sorted (missing ∪ retry) minus completed_ids) — the two planners are
equivalent. -/
theorem claim5_planner_equivalence (allIds : Finset Int) (rows : List OutRecord)
    (_hnd : (rows.map OutRecord.id).Nodup) :
    pendingManual allIds (loadExistingResults rows) =
      pendingWeb allIds (loadExistingResults rows) := by
  unfold pendingManual pendingWeb
  congr 1
  have hkeys := loadExistingResults_keys rows
  ext x
  simp only [Finset.mem_sdiff, Finset.mem_union, Finset.mem_inter, hkeys]
  constructor
  · rintro ⟨hall, hnc⟩
    refine ⟨?_, hnc⟩
    by_cases hf : x ∈ (loadExistingResults rows).failed
    · exact Or.inr ⟨hall, hf⟩
    · refine Or.inl ⟨hall, ?_⟩
      intro hk
      rcases hk with hc | hf2
      · exact hnc hc
      · exact hf hf2
  · rintro ⟨h1 | h2, hnc⟩
    · exact ⟨h1.1, hnc⟩
    · exact ⟨h2.1, hnc⟩

/-- Witness for C5 at a concrete input. -/
theorem claim5_witness :
    (([⟨1, "r", "x", ""⟩] : List OutRecord).map OutRecord.id).Nodup ∧
    pendingManual {1, 2} (loadExistingResults [⟨1, "r", "x", ""⟩]) =
      pendingWeb {1, 2} (loadExistingResults [⟨1, "r", "x", ""⟩]) :=
  ⟨by decide, claim5_planner_equivalence {1, 2} [⟨1, "r", "x", ""⟩] (by decide)⟩

/-! ## Lemmas about the cleaning scanner -/

theorem mlDollar_length_le (l : List Char) : (mlDollar l).length ≤ l.length := by
  unfold mlDollar
  induction l with
  | nil => simp
  | cons c t ih =>
    rw [List.dropWhile_cons]
    by_cases h : (!(c == '\n')) = true
    · rw [if_pos h]
      exact Nat.le_trans ih (Nat.le_succ _)
    · rw [if_neg h]

theorem subScanF_fuel_irrel (dollar : List Char → List Char) (tryM : List Char → Option Nat)
    (hd : ∀ l, (dollar l).length ≤ l.length)
    (ht : ∀ s k, tryM s = some k → 1 ≤ k) :
    ∀ (f1 f2 : Nat) (s : List Char), s.length ≤ f1 → s.length ≤ f2 →
    subScanF dollar tryM f1 s = subScanF dollar tryM f2 s := by
  intro f1
  induction f1 with
  | zero =>
    intro f2 s h1 _
    cases s with
    | nil => cases f2 <;> rfl
    | cons c rest => simp at h1
  | succ a ih =>
    intro f2 s h1 h2
    cases s with
    | nil => cases f2 <;> rfl
    | cons c rest =>
      cases f2 with
      | zero => simp at h2
      | succ b =>
        cases htry : tryM (c :: rest) with
        | none =>
          simp only [subScanF, htry]
          rw [ih b rest (by simpa using h1) (by simpa using h2)]
        | some k =>
          have hk := ht _ _ htry
          simp only [subScanF, htry]
          have hlen : (dollar ((c :: rest).drop k)).length ≤ rest.length := by
            refine Nat.le_trans (hd _) ?_
            rw [List.length_drop, List.length_cons]
            omega
          exact ih b _ (Nat.le_trans hlen (by simpa using h1))
            (Nat.le_trans hlen (by simpa using h2))

theorem subPatML_step_none (pat : TrailerPat) (c : Char) (rest : List Char)
    (hp : patTry pat (c :: rest) = none) :
    subPatML pat (c :: rest) = c :: subPatML pat rest := by
  show subScanF mlDollar (patTry pat) ((c :: rest).length) (c :: rest) = _
  rw [List.length_cons]
  simp only [subScanF, hp]
  rfl

theorem subPatML_step_match (pat : TrailerPat) (c : Char) (rest : List Char) (k : Nat)
    (hp : patTry pat (c :: rest) = some k) (hk1 : 1 ≤ k)
    (ht : ∀ s2 k2, patTry pat s2 = some k2 → 1 ≤ k2) :
    subPatML pat (c :: rest) = subPatML pat (mlDollar ((c :: rest).drop k)) := by
  show subScanF mlDollar (patTry pat) ((c :: rest).length) (c :: rest) = _
  rw [List.length_cons]
  simp only [subScanF, hp]
  apply subScanF_fuel_irrel mlDollar (patTry pat) mlDollar_length_le ht
  · refine Nat.le_trans (mlDollar_length_le _) ?_
    rw [List.length_drop, List.length_cons]
    omega
  · exact Nat.le_refl _

theorem patTry_sepRun_none (c x : Char) (t : List Char) (h : ¬ x = c) :
    patTry (.sepRun c) (x :: t) = none := by
  have htw : ((x :: t).takeWhile (· == c)) = [] := by
    rw [List.takeWhile_cons, if_neg (by simpa using h)]
  show (if 3 ≤ ((x :: t).takeWhile (· == c)).length then
      some ((x :: t).takeWhile (· == c)).length else none) = none
  rw [htw]
  rfl

theorem patTry_sepRun_pos (s : List Char) (k : Nat)
    (h : patTry (.sepRun '*') s = some k) : 1 ≤ k := by
  simp only [patTry] at h
  split at h
  · rename_i h3
    injection h with he
    omega
  · cases h

theorem subPatML_skip (pat : TrailerPat) (u s : List Char)
    (h : ∀ (x : Char) (t : List Char), x ∈ u → patTry pat (x :: t) = none) :
    subPatML pat (u ++ s) = u ++ subPatML pat s := by
  induction u with
  | nil => rfl
  | cons x u ih =>
    have hx : patTry pat (x :: (u ++ s)) = none :=
      h x (u ++ s) (List.mem_cons_self x u)
    rw [List.cons_append, subPatML_step_none pat x (u ++ s) hx,
      ih (fun y t hy => h y t (List.mem_cons_of_mem x hy))]
    rfl

theorem mlDollar_append (w v : List Char) (h : '\n' ∉ w) :
    mlDollar (w ++ '\n' :: v) = '\n' :: v := by
  induction w with
  | nil =>
    unfold mlDollar
    rw [List.nil_append, List.dropWhile_cons]
    simp
  | cons c t ih =>
    have hc : ¬ c = '\n' := fun e => h (e ▸ List.mem_cons_self c t)
    unfold mlDollar at ih ⊢
    rw [List.cons_append, List.dropWhile_cons, if_pos (by simpa using hc)]
    exact ih (fun hm => h (List.mem_cons_of_mem c hm))

theorem patTry_sep_three_star (w v : List Char) (hhead : w.head? ≠ some '*') :
    patTry (.sepRun '*') ('*' :: '*' :: '*' :: (w ++ '\n' :: v)) = some 3 := by
  have htw : ((w ++ '\n' :: v).takeWhile (· == '*')) = [] := by
    cases w with
    | nil =>
      rw [List.nil_append, List.takeWhile_cons]
      simp
    | cons c t =>
      have hc : ¬ c = '*' := fun e => hhead (by rw [List.head?_cons, e])
      rw [List.cons_append, List.takeWhile_cons, if_neg (by simpa using hc)]
  show (if 3 ≤ (('*' :: '*' :: '*' :: (w ++ '\n' :: v)).takeWhile (· == '*')).length then
      some (('*' :: '*' :: '*' :: (w ++ '\n' :: v)).takeWhile (· == '*')).length else none) =
      some 3
  simp only [List.takeWhile_cons, beq_self_eq_true, if_true, htw]
  rfl

/-- Claim C6, counterexample to the claim as stated: in
`"1. Hello\n***\n2. World"` the `***` separator does not discard through
the end of the whole text — line `2. World` survives and is parsed — while
the claimed behavior would yield `["Hello", ""]`. -/
theorem claim6_counterexample :
    parse_numbered_text "1. Hello\n***\n2. World" 2 = ["Hello", "World"] ∧
    (["Hello", "World"] : List String) ≠ ["Hello", ""] :=
  ⟨by decide, by decide⟩

/-- Claim C6 amended: once a hard separator (here `***`) is found, the
match extends only to the end of that separator's line (the lazy `.*?$`
with MULTILINE stops at the first end-of-line): everything from the
separator to its end of line is discarded, the newline is kept, and the
following lines are processed normally rather than discarded. -/
theorem claim6_amended (u w v : List Char) (hu : '*' ∉ u) (hw : '\n' ∉ w)
    (hhead : w.head? ≠ some '*') :
    subPatML (.sepRun '*') (u ++ '*' :: '*' :: '*' :: (w ++ '\n' :: v)) =
      u ++ '\n' :: subPatML (.sepRun '*') v := by
  rw [subPatML_skip (.sepRun '*') u _
    (fun x t hx => patTry_sepRun_none '*' x t (fun e => hu (e ▸ hx)))]
  congr 1
  have hp := patTry_sep_three_star w v hhead
  rw [subPatML_step_match (.sepRun '*') '*' ('*' :: '*' :: (w ++ '\n' :: v)) 3 hp
    (by omega) patTry_sepRun_pos]
  have hdrop : (('*' :: '*' :: '*' :: (w ++ '\n' :: v)).drop 3) = w ++ '\n' :: v := rfl
  rw [hdrop, mlDollar_append w v hw,
    subPatML_step_none (.sepRun '*') '\n' v (patTry_sepRun_none '*' '\n' v (by decide))]

/-- Witness for the amended C6 at a concrete input. -/
theorem claim6_witness :
    ('*' ∉ (['a'] : List Char) ∧ '\n' ∉ (['x'] : List Char) ∧
      (['x'] : List Char).head? ≠ some '*') ∧
    subPatML (.sepRun '*') (['a'] ++ '*' :: '*' :: '*' :: (['x'] ++ '\n' :: ['b'])) =
      ['a'] ++ '\n' :: subPatML (.sepRun '*') ['b'] :=
  ⟨⟨by decide, by decide, by decide⟩,
   claim6_amended ['a'] ['x'] ['b'] (by decide) (by decide) (by decide)⟩

theorem foldStartsWith_append (p rest : List Char) : foldStartsWith p (p ++ rest) = true := by
  induction p with
  | nil => rfl
  | cons c t ih => simp [foldStartsWith, ih]

theorem foldStartsWith_cons_false (pc c : Char) (ps s : List Char)
    (h : ¬ charFold pc = charFold c) : foldStartsWith (pc :: ps) (c :: s) = false := by
  simp [foldStartsWith, h]

theorem patTry_phrase_pos (p : String) (hp : 1 ≤ p.data.length) :
    ∀ (s : List Char) (k : Nat), patTry (.phrase p) s = some k → 1 ≤ k := by
  intro s k h
  simp only [patTry] at h
  split at h
  · injection h with he
    omega
  · cases h

theorem patTry_would_newline (v : List Char) :
    patTry (.phrase "Would you like") ('\n' :: v) = none := by
  show (if foldStartsWith "Would you like".data ('\n' :: v) = true then
      some "Would you like".data.length else none) = none
  rw [show "Would you like".data = 'W' :: "ould you like".data from rfl,
    foldStartsWith_cons_false 'W' '\n' _ _ (by decide)]
  rfl

/-- Claim C7, counterexample to the claim as stated: the phrase
`"Would you like"` occurring mid-paragraph in content line 1 (which is not
a trailing line — real content follows it) is still stripped, truncating
the line at the phrase; the claim says such a line is returned
unchanged. -/
theorem claim7_counterexample :
    parse_numbered_text "1. He asked: Would you like tea? She nodded.\n2. End" 2 =
      ["He asked:", "End"] ∧
    (["He asked:", "End"] : List String) ≠
      ["He asked: Would you like tea? She nodded.", "End"] :=
  ⟨by decide, by decide⟩

/-- Claim C7 amended: the conversational-phrase stripping is applied by a
global substitution over the whole text: every occurrence of the phrase,
wherever it is (not only on a trailing line), is removed together with the
rest of its own line, and the following lines are still processed. -/
theorem claim7_amended (w v : List Char) (hw : '\n' ∉ w) :
    subPatML (.phrase "Would you like") ("Would you like".data ++ (w ++ '\n' :: v)) =
      '\n' :: subPatML (.phrase "Would you like") v := by
  have hp : patTry (.phrase "Would you like") ("Would you like".data ++ (w ++ '\n' :: v)) =
      some ("Would you like".data.length) := by
    show (if foldStartsWith "Would you like".data
          ("Would you like".data ++ (w ++ '\n' :: v)) = true then
        some "Would you like".data.length else none) = some "Would you like".data.length
    rw [foldStartsWith_append]
    rfl
  have he : "Would you like".data ++ (w ++ '\n' :: v) =
      'W' :: ("ould you like".data ++ (w ++ '\n' :: v)) := rfl
  rw [he] at hp ⊢
  rw [subPatML_step_match (.phrase "Would you like") 'W'
    ("ould you like".data ++ (w ++ '\n' :: v)) ("Would you like".data.length) hp
    (by decide) (patTry_phrase_pos "Would you like" (by decide))]
  have hdrop : (('W' :: ("ould you like".data ++ (w ++ '\n' :: v))).drop
      ("Would you like".data.length)) = w ++ '\n' :: v := by
    rw [← he]
    exact List.drop_left "Would you like".data (w ++ '\n' :: v)
  rw [hdrop, mlDollar_append w v hw,
    subPatML_step_none (.phrase "Would you like") '\n' v (patTry_would_newline v)]

/-- Witness for the amended C7 at a concrete input. -/
theorem claim7_witness :
    ('\n' ∉ (['x'] : List Char)) ∧
    subPatML (.phrase "Would you like") ("Would you like".data ++ (['x'] ++ '\n' :: ['b'])) =
      '\n' :: subPatML (.phrase "Would you like") ['b'] :=
  ⟨by decide, claim7_amended ['x'] ['b'] (by decide)⟩

/-! ## Parser length invariant and missing-line behavior -/

theorem parse_numbered_text_length (text : String) (n : Nat) :
    (parse_numbered_text text n).length = n := by
  cases h : (matchesOf text).isEmpty with
  | true =>
    simp only [parse_numbered_text, h, if_true, List.length_map, List.length_append,
      List.length_replicate, List.length_take]
    omega
  | false =>
    simp only [parse_numbered_text, h, Bool.false_eq_true, if_false, List.length_map,
      fillLines, List.length_range']

theorem wbs_parse_numbered_text_length (text : String) (n : Nat) :
    (wbs_parse_numbered_text text n).length = n := by
  cases h : (findMatchesF text.data.length text.data).isEmpty with
  | true =>
    simp only [wbs_parse_numbered_text, h, if_true, List.length_map, List.length_append,
      List.length_replicate, List.length_take]
    omega
  | false =>
    simp only [wbs_parse_numbered_text, h, Bool.false_eq_true, if_false, List.length_map,
      fillLines, List.length_range']

theorem parse_numbered_text_missing (text : String) (n i : Nat)
    (h1 : 1 ≤ i) (h2 : i ≤ n) (hm : (matchesOf text).isEmpty = false)
    (habs : dictGet (numberedMapOf text n) i = none) :
    (parse_numbered_text text n)[i - 1]? = some "" := by
  simp only [parse_numbered_text, hm, Bool.false_eq_true, if_false, fillLines,
    List.getElem?_map]
  have hlt : i - 1 < n := by omega
  rw [List.getElem?_range' 1 1 hlt]
  have hi : 1 + 1 * (i - 1) = i := by omega
  rw [hi]
  simp only [Option.map_some', habs, Option.getD_none]

/-- Claim C2 corrected, counterexample to the claim as stated: on input
`"hello"` with expected_count 1 no numbered line is present, so line
number 1 is absent from the response, yet position 1 of the result is the
fallback content `"hello"` rather than the empty string. -/
theorem claim2_counterexample :
    parse_numbered_text "hello" 1 = ["hello"] ∧ ("hello" : String) ≠ "" :=
  ⟨by decide, by decide⟩

/-- Claim C2 amended: both parsers always return exactly expected_count
entries, on every input (the functions are total, i.e. never raise); and
when numbered lines are found, a line number absent from the final
bounds-filtered, repaired map yields the empty string at its position.
When no numbered line is found at all, a newline-split fallback fills the
leading positions instead, so an absent line number needs not be empty
there. -/
theorem claim2_amended :
    (∀ (text : String) (n : Nat),
      (parse_numbered_text text n).length = n ∧
      (wbs_parse_numbered_text text n).length = n)
    ∧ (∀ (text : String) (n i : Nat), 1 ≤ i → i ≤ n →
        (matchesOf text).isEmpty = false →
        dictGet (numberedMapOf text n) i = none →
        (parse_numbered_text text n)[i - 1]? = some "") :=
  ⟨fun text n => ⟨parse_numbered_text_length text n, wbs_parse_numbered_text_length text n⟩,
   fun text n i h1 h2 hm habs => parse_numbered_text_missing text n i h1 h2 hm habs⟩

/-- Witness for the amended C2 at a concrete input. -/
theorem claim2_witness :
    (1 ≤ 2 ∧ 2 ≤ 2 ∧ (matchesOf "1. A").isEmpty = false ∧
      dictGet (numberedMapOf "1. A" 2) 2 = none) ∧
    ((parse_numbered_text "1. A" 2).length = 2 ∧
      (parse_numbered_text "1. A" 2)[2 - 1]? = some "") :=
  ⟨⟨by decide, by decide, by decide, by decide⟩,
   ⟨(claim2_amended.1 "1. A" 2).1,
    claim2_amended.2 "1. A" 2 2 (by decide) (by decide) (by decide) (by decide)⟩⟩

/-! ## Status rules of the success-path upserts (C4) -/

theorem map_fst_zip_take {α β : Type} (l1 : List α) (l2 : List β) :
    (l1.zip l2).map Prod.fst = l1.take l2.length := by
  induction l1 generalizing l2 with
  | nil => simp
  | cons a t ih =>
    cases l2 with
    | nil => simp
    | cons b u => simp [List.zip_cons_cons, ih]

theorem zip_fst_id_nodup (batch : List InRow) (ts : List String)
    (hnd : (batch.map InRow.id).Nodup) :
    ((batch.zip ts).map (fun p => p.1.id)).Nodup := by
  have he : ((batch.zip ts).map (fun p => p.1.id)) =
      (batch.map InRow.id).take ts.length := by
    have h1 : ((batch.zip ts).map (fun p : InRow × String => p.1.id)) =
        ((batch.zip ts).map Prod.fst).map InRow.id := by
      rw [List.map_map]
      rfl
    rw [h1, map_fst_zip_take, List.map_take]
  rw [he]
  exact hnd.sublist (List.take_sublist _ _)

/-- Claim C4, counterexample to the claim as stated: in the web-automation
mode, on a successful backend invocation whose parsed translation for the
row is the empty string, the upserted record has status `""`, not
`"failed"` (`run_web_service` lines 187-194 always write status `''` on
the success path). -/
theorem claim4_counterexample :
    dictGet (webBatchStep (some [""]) [⟨1, "a"⟩] []) 1 = some ⟨1, "a", "", ""⟩ ∧
    (⟨1, "a", "", ""⟩ : OutRecord).status ≠ "failed" :=
  ⟨by decide, by decide⟩

/-- Claim C4 amended: on a successful backend invocation, the API mode
upserts, per (row, translation) pair, a record whose status is `"failed"`
exactly when the translation is empty and `""` otherwise; the web mode
always upserts status `""`, even for an empty translation. -/
theorem claim4_amended (batch : List InRow) (results : List (Int × OutRecord))
    (hnd : (batch.map InRow.id).Nodup) :
    (∀ (ts : List String) (p : InRow × String), ts ≠ [] → p ∈ batch.zip ts →
      dictGet (webBatchStep (some ts) batch results) p.1.id =
        some (webSuccessRecord p.1 p.2) ∧
      (webSuccessRecord p.1 p.2).status = "")
    ∧ (∀ (t : String) (p : InRow × String), t ≠ "" →
        p ∈ batch.zip (parse_numbered_text t batch.length) →
        dictGet (apiBatchStep (some t) batch results) p.1.id =
          some (apiSuccessRecord p.1 p.2) ∧
        (apiSuccessRecord p.1 p.2).status = (if p.2 = "" then "failed" else "")) := by
  constructor
  · intro ts p hts hp
    constructor
    · have htr : truthyList (some ts) = true := by
        cases ts with
        | nil => exact absurd rfl hts
        | cons a l => rfl
      unfold webBatchStep
      rw [if_pos htr]
      have hget : (some ts).getD [] = ts := rfl
      rw [hget]
      exact dictGet_foldl_mem (fun p : InRow × String => p.1.id)
        (fun p => webSuccessRecord p.1 p.2) (batch.zip ts) results p hp
        (zip_fst_id_nodup batch ts hnd)
    · rfl
  · intro t p ht hp
    constructor
    · have htr : (t != "") = true := bne_iff_ne.mpr ht
      simp only [apiBatchStep, htr, if_true]
      exact dictGet_foldl_mem (fun p : InRow × String => p.1.id)
        (fun p => apiSuccessRecord p.1 p.2) _ results p hp
        (zip_fst_id_nodup batch _ hnd)
    · by_cases he : p.2 = "" <;> simp [apiSuccessRecord, he]

/-- Witness for the amended C4 at a concrete input. -/
theorem claim4_witness :
    ((([⟨1, "a"⟩] : List InRow).map InRow.id).Nodup ∧ (["x"] : List String) ≠ [] ∧
      ((⟨1, "a"⟩, "x") : InRow × String) ∈ ([⟨1, "a"⟩] : List InRow).zip ["x"]) ∧
    dictGet (webBatchStep (some ["x"]) [⟨1, "a"⟩] []) (⟨1, "a"⟩ : InRow).id =
      some (webSuccessRecord ⟨1, "a"⟩ "x") :=
  ⟨⟨by decide, by decide, by decide⟩,
   ((claim4_amended [⟨1, "a"⟩] [] (by decide)).1 ["x"] (⟨1, "a"⟩, "x")
     (by decide) (by decide)).1⟩

/-! ## Progress counting (C8) -/

/-- Claim C8, counterexample to the claim as stated: existing output holds
id 100 (outside the filtered all_ids = {1}) with a valid edit; after the
web loop processes the single pending id 1 successfully, the flushed file
holds two rows with non-empty edits and `update_progress` reports
completed_count 2, whereas the claimed value — ids with non-empty edit
intersected with all_ids — is 1. -/
theorem claim8_counterexample :
    updateProgressCount (flushRecords (runWebLoop [⟨1, "a"⟩] [1] 1
        (fun _ => (some ["y"], none)) (fun _ => false)
        (loadExistingResults [⟨100, "r", "x", ""⟩]).results).results) = 2 ∧
    ((((flushRecords (runWebLoop [⟨1, "a"⟩] [1] 1
          (fun _ => (some ["y"], none)) (fun _ => false)
          (loadExistingResults [⟨100, "r", "x", ""⟩]).results).results).filter
        (fun r => r.edit != "")).map OutRecord.id).toFinset ∩ ({1} : Finset Int)).card = 1 ∧
    (2 : Nat) ≠ 1 :=
  ⟨by decide, by decide, by decide⟩

/-- Claim C8 amended: `update_progress` counts every output-file row whose
edit cell is present (not NaN after the CSV round trip) and non-empty,
with no intersection with the filtered all_ids: a row whose id lies
outside the `[start_id, stop_id]` range still increments the reported
completed_count (only the denominator, `total_input_rows = len(all_input_ids)`,
is range-restricted). -/
theorem claim8_amended (rows : List OutRecord) (r : OutRecord)
    (h1 : cellIsNa r.edit = false) (h2 : r.edit ≠ "") :
    updateProgressCount (r :: rows) = updateProgressCount rows + 1 := by
  unfold updateProgressCount
  rw [List.filter_cons]
  have hcond : (!cellIsNa r.edit && r.edit != "") = true := by
    rw [h1, bne_iff_ne.mpr h2]
    rfl
  rw [if_pos hcond]
  rfl

/-- Witness for the amended C8 at a concrete input. -/
theorem claim8_witness :
    (cellIsNa "x" = false ∧ ("x" : String) ≠ "") ∧
    updateProgressCount (⟨100, "r", "x", ""⟩ :: [⟨1, "a", "y", ""⟩]) =
      updateProgressCount [⟨1, "a", "y", ""⟩] + 1 :=
  ⟨⟨by decide, by decide⟩,
   claim8_amended [⟨1, "a", "y", ""⟩] ⟨100, "r", "x", ""⟩ (by decide) (by decide)⟩

/-! ## The batch loop and backend errors (C1) -/

theorem webLoop_fold_dispatch (df : List InRow) (ids : List Int) (bs : Nat)
    (b1 b2 : Nat → Option (List String) × Option String) (stop : Nat → Bool)
    (l : List Nat) :
    ∀ (st1 st2 : WebRunState),
    st1.dispatched = st2.dispatched → st1.stopped = st2.stopped →
    (l.foldl (webLoopStep df ids bs b1 stop) st1).dispatched =
      (l.foldl (webLoopStep df ids bs b2 stop) st2).dispatched ∧
    (l.foldl (webLoopStep df ids bs b1 stop) st1).stopped =
      (l.foldl (webLoopStep df ids bs b2 stop) st2).stopped := by
  induction l with
  | nil =>
    intro st1 st2 h1 h2
    exact ⟨h1, h2⟩
  | cons b t ih =>
    intro st1 st2 h1 h2
    obtain ⟨res1, d1, s1⟩ := st1
    obtain ⟨res2, d2, s2⟩ := st2
    dsimp only at h1 h2
    subst h1
    subst h2
    rw [List.foldl_cons, List.foldl_cons]
    apply ih <;>
    · unfold webLoopStep
      by_cases hs : s1 = true
      · simp [hs]
      · by_cases hb : stop b = true
        · simp [hs, hb]
        · by_cases he :
              (materializeBatch df ((ids.drop ((b - 1) * bs)).take bs)).isEmpty = true
          · simp [hs, hb, he]
          · simp [hs, hb, he]

/-- Claim C1, counterexample to the claim as stated: with three planned
single-row batches, the backend returns on batch 2 exactly the error the
claim designates as critical ("Input box not found",
`run_generic_bot` lines 100-103).  Batch 2's row is recorded failed, but
batch 3 IS dispatched afterwards — `run_web_service` has no critical-error
check and continues the loop on every error. -/
theorem claim1_counterexample :
    (runWebLoop [⟨1, "a"⟩, ⟨2, "b"⟩, ⟨3, "c"⟩] [1, 2, 3] 1
        (fun b => if b == 2 then (none, some "Input box not found")
                  else (some ["x"], none))
        (fun _ => false) []).dispatched = [1, 2, 3] ∧
    dictGet (runWebLoop [⟨1, "a"⟩, ⟨2, "b"⟩, ⟨3, "c"⟩] [1, 2, 3] 1
        (fun b => if b == 2 then (none, some "Input box not found")
                  else (some ["x"], none))
        (fun _ => false) []).results 2 = some ⟨2, "b", "", "failed"⟩ :=
  ⟨by decide, by decide⟩

/-- Claim C1 amended: a backend error — critical or not — marks every row
of the erroring batch failed (empty edit, status `"failed"`), and the loop
always continues: the sequence of dispatched batch numbers does not depend
on the backend's results at all (only the user stop flag ends the loop
early), so a batch after a critical error is still dispatched. -/
theorem claim1_amended :
    (∀ (df : List InRow) (ids : List Int) (bs : Nat)
       (b1 b2 : Nat → Option (List String) × Option String) (stop : Nat → Bool)
       (init1 init2 : List (Int × OutRecord)),
      (runWebLoop df ids bs b1 stop init1).dispatched =
        (runWebLoop df ids bs b2 stop init2).dispatched)
    ∧ (∀ (tr : Option (List String)) (batch : List InRow)
        (results : List (Int × OutRecord)) (r : InRow),
        truthyList tr = false → r ∈ batch → (batch.map InRow.id).Nodup →
        dictGet (webBatchStep tr batch results) r.id = some (failedRecord r)) := by
  constructor
  · intro df ids bs b1 b2 stop init1 init2
    exact (webLoop_fold_dispatch df ids bs b1 b2 stop _ ⟨init1, [], false⟩
      ⟨init2, [], false⟩ rfl rfl).1
  · intro tr batch results r htr hr hnd
    unfold webBatchStep
    rw [if_neg (by rw [htr]; exact Bool.false_ne_true)]
    exact dictGet_foldl_mem InRow.id failedRecord batch results r hr hnd

/-- Witness for the amended C1 at a concrete input. -/
theorem claim1_witness :
    ((runWebLoop [⟨1, "a"⟩] [1] 1 (fun _ => (some ["x"], none)) (fun _ => false) []).dispatched =
      (runWebLoop [⟨1, "a"⟩] [1] 1 (fun _ => (none, some "err")) (fun _ => false) []).dispatched)
    ∧ (truthyList none = false ∧ (⟨1, "a"⟩ : InRow) ∈ ([⟨1, "a"⟩] : List InRow) ∧
        (([⟨1, "a"⟩] : List InRow).map InRow.id).Nodup)
    ∧ dictGet (webBatchStep none [⟨1, "a"⟩] []) (⟨1, "a"⟩ : InRow).id =
        some (failedRecord ⟨1, "a"⟩) :=
  ⟨claim1_amended.1 [⟨1, "a"⟩] [1] 1 (fun _ => (some ["x"], none))
     (fun _ => (none, some "err")) (fun _ => false) [] [],
   ⟨by decide, by decide, by decide⟩,
   claim1_amended.2 none [⟨1, "a"⟩] [] ⟨1, "a"⟩ (by decide) (by decide) (by decide)⟩
